import Mathlib

/-
A verification development for the MigraGo database migration tool.

The repository has two implementations of the reconciliation algorithm:
the MigrationService methods (checkExistingChangelogs, ExecuteMigration,
executeSingleMigration, extractMigration, getMigrations) and the older
function-based one in migrate.go (ExecuteMigration, convertMigrationToMap,
executeChangeLog, revertScript, ReadChangeLogFile). Both are embedded
here as pure functions. Database side effects are made explicit:

  * revertOk / applyOk oracles tell whether a revert or apply transaction
    commits; a transaction that fails commits nothing (modelled in full by
    the Tx state machine further down);
  * Go map iteration order is unspecified, so every loop that ranges over
    a map takes the iteration order as an explicit parameter, constrained
    in theorems to be a permutation of the map entries;
  * the changelog snapshot is the list returned by
    SELECT ... ORDER BY installedAt DESC, newest entry first.
-/

set_option linter.unusedVariables false
set_option maxRecDepth 100000

/-- A migration record (migrate.go lines 12-17, MigrationService file lines
28-33): identifier, forward script, revert script, checksum. Rows scanned
back from the changelog table use the same shape with an empty script field,
because the forward script is not persisted. -/
structure Migration where
  id : String
  script : String
  revertScript : String
  checksum : String
deriving DecidableEq, Repr

/-- The changelog row inserted for a migration: the INSERT stores id,
checksum and revertscript only, and a later SELECT scans it back with an
empty script field. -/
def toEntry (m : Migration) : Migration :=
  { id := m.id, script := "", revertScript := m.revertScript, checksum := m.checksum }

/-- Go map assignment m[mig.Id] = mig on an id-keyed association list:
replace the entry with the same key if present, otherwise add the new
entry. -/
def mapUpsert (m : List Migration) (mig : Migration) : List Migration :=
  match m with
  | [] => [mig]
  | e :: rest => if e.id == mig.id then mig :: rest else e :: mapUpsert rest mig

/-- Go map lookup m[i]. -/
def mapLookup (m : List Migration) (i : String) : Option Migration :=
  m.find? (fun e => e.id == i)

/-- Go delete(m, i). -/
def mapDelete (m : List Migration) (i : String) : List Migration :=
  m.filter (fun e => e.id != i)

/-- convertMigrationToMap (migrate.go 94-100): build the id-keyed map from
the declared migration list. MigrationService.getMigrations (lines 95-110)
builds its map with the same assignment loop over the configured id list,
so a duplicated id silently keeps only the later assignment in both. -/
def convertMigrationToMap (migrations : List Migration) : List Migration :=
  migrations.foldl mapUpsert []

/-- The errors the run can stop with. The Go code returns error values
carrying a message; the constructors record the identifying data available
at each error site (the checksum-mismatch message of the service embeds the
id and both checksums). -/
inductive RunError where
  | checksumMismatch (id fileChecksum dbChecksum : String)
  | nonRevertibleOrder
  | revertFailed (id : String)
  | applyFailed (id : String)
deriving DecidableEq, Repr

/-- Outcome of one reconciliation run: the entries whose revert transaction
committed (walk order), the migrations whose apply transaction committed
(apply order), the error that stopped the run if any, and the changelog
after the run (newest first). -/
structure RunResult where
  reverts : List Migration
  applies : List Migration
  error : Option RunError
  finalLog : List Migration
deriving DecidableEq, Repr

/-- The changelog rows remaining once each reverted row was removed by
DELETE FROM changelog WHERE id = $1. -/
def removeIds (log deleted : List Migration) : List Migration :=
  log.filter (fun e => !(deleted.any (fun r => r.id == e.id)))

namespace MigrationService

/-- The loop of checkExistingChangelogs (MigrationService file lines
175-194) over the applied changelog, newest first. If the entry id is in
the desired map, a checksum difference aborts, otherwise notReverted is
set; if it is not in the map, an entry after a kept one aborts, otherwise
revertSingleMigration runs and its failure aborts. Returns the reverted
entries in order and the error that stopped the walk. -/
def checkWalk (revertOk : Migration → Bool) (migrations : List Migration)
    (notReverted : Bool) : List Migration → List Migration × Option RunError
  | [] => ([], none)
  | e :: rest =>
    match mapLookup migrations e.id with
    | some m =>
      if e.checksum != m.checksum then
        ([], some (.checksumMismatch e.id m.checksum e.checksum))
      else
        checkWalk revertOk migrations true rest
    | none =>
      if notReverted then ([], some .nonRevertibleOrder)
      else if revertOk e then
        let r := checkWalk revertOk migrations notReverted rest
        (e :: r.1, r.2)
      else ([], some (.revertFailed e.id))

/-- checkExistingChangelogs (lines 175-194): the walk starting with
notReverted = false. -/
def checkExistingChangelogs (revertOk : Migration → Bool)
    (existingMigrations : List Migration) (migrations : List Migration) :
    List Migration × Option RunError :=
  checkWalk revertOk migrations false existingMigrations

/-- Step 5 of ExecuteMigration (lines 239-249): range over the desired map
in Go map iteration order, skip a migration whose id already appears in the
original existingMigrations list, execute the rest through
executeSingleMigration; a failed apply aborts, earlier applies stay. -/
def applyLoop (applyOk : Migration → Bool) (existingMigrations : List Migration) :
    List Migration → List Migration × Option RunError
  | [] => ([], none)
  | m :: rest =>
    if existingMigrations.any (fun e => e.id == m.id) then
      applyLoop applyOk existingMigrations rest
    else if applyOk m then
      let r := applyLoop applyOk existingMigrations rest
      (m :: r.1, r.2)
    else ([], some (.applyFailed m.id))

/-- ExecuteMigration (MigrationService file lines 216-251), with the
desired migrations, the map iteration order of step 5, and the changelog
snapshot explicit. finalLog is the changelog after the run: rows reverted
by the walk deleted, new applies inserted on top (installedAt DESC). -/
def ExecuteMigration (revertOk applyOk : Migration → Bool)
    (migrations : List Migration) (iterOrder : List Migration)
    (existingMigrations : List Migration) : RunResult :=
  let w := checkExistingChangelogs revertOk existingMigrations (convertMigrationToMap migrations)
  match w.2 with
  | some e => ⟨w.1, [], some e, removeIds existingMigrations w.1⟩
  | none =>
    let a := applyLoop applyOk existingMigrations iterOrder
    ⟨w.1, a.1, a.2, (a.1.reverse.map toEntry) ++ removeIds existingMigrations w.1⟩

end MigrationService

namespace Migrate

/-- The row loop of ExecuteMigration (migrate.go lines 31-50). Reverts call
revertScript and DISCARD its error (line 41), so a failed revert leaves its
row in place and the walk continues; kept ids are checked for checksum
drift and deleted from the map. Returns the successfully reverted entries,
the remaining map and the error that stopped the loop. -/
def walk (revertOk : Migration → Bool) (fileMigrations : List Migration)
    (notReverted : Bool) :
    List Migration → List Migration × List Migration × Option RunError
  | [] => ([], fileMigrations, none)
  | e :: rest =>
    match mapLookup fileMigrations e.id with
    | none =>
      if notReverted then ([], fileMigrations, some .nonRevertibleOrder)
      else
        let r := walk revertOk fileMigrations notReverted rest
        (if revertOk e then e :: r.1 else r.1, r.2.1, r.2.2)
    | some m =>
      if e.checksum != m.checksum then
        ([], fileMigrations, some (.checksumMismatch e.id m.checksum e.checksum))
      else
        walk revertOk (mapDelete fileMigrations e.id) true rest

/-- The apply loop of migrate.go lines 51-56 over the map left by the walk,
in Go map iteration order; a failed executeChangeLog aborts. -/
def applyAll (applyOk : Migration → Bool) :
    List Migration → List Migration × Option RunError
  | [] => ([], none)
  | m :: rest =>
    if applyOk m then
      let r := applyAll applyOk rest
      (m :: r.1, r.2)
    else ([], some (.applyFailed m.id))

/-- ExecuteMigration (migrate.go lines 19-58). remOrder abstracts the Go
map iteration order over whatever map the walk leaves; theorems constrain
its result to a permutation of that map. -/
def ExecuteMigration (revertOk applyOk : Migration → Bool)
    (migrations : List Migration) (remOrder : List Migration → List Migration)
    (existing : List Migration) : RunResult :=
  let w := walk revertOk (convertMigrationToMap migrations) false existing
  match w.2.2 with
  | some e => ⟨w.1, [], some e, removeIds existing w.1⟩
  | none =>
    let a := applyAll applyOk (remOrder w.2.1)
    ⟨w.1, a.1, a.2, (a.1.reverse.map toEntry) ++ removeIds existing w.1⟩

end Migrate

/-- Committed database state: the scripts executed and committed, in
order, and the changelog, newest row first. -/
structure DBState where
  executed : List String
  changelog : List Migration
deriving DecidableEq, Repr

/-- An open transaction: the base state plus uncommitted effects. A
rollback, or an abandoned transaction that is never committed, publishes
nothing; only commitTx changes the database. -/
structure Tx where
  base : DBState
  pendingScripts : List String
  pendingEntries : List Migration
  pendingDeletes : List String
deriving DecidableEq, Repr

/-- conn.BeginTx: a fresh transaction over the current state. -/
def beginTx (st : DBState) : Tx := ⟨st, [], [], []⟩

/-- tx.ExecContext on a migration or revert script; execOk tells whether
the script itself runs without a database error. -/
def txExecScript (execOk : String → Bool) (tx : Tx) (script : String) : Option Tx :=
  if execOk script then
    some { tx with pendingScripts := tx.pendingScripts ++ [script] }
  else none

/-- tx.ExecContext of INSERT INTO changelog (id, checksum, revertscript);
insertOk tells whether the bookkeeping statement succeeds. -/
def txInsertChangelog (insertOk : Migration → Bool) (tx : Tx) (m : Migration) : Option Tx :=
  if insertOk m then
    some { tx with pendingEntries := tx.pendingEntries ++ [m] }
  else none

/-- tx.Commit: publish the pending effects, new changelog rows on top
(installedAt DESC), deleted rows removed. -/
def commitTx (commitOk : Bool) (tx : Tx) : Option DBState :=
  if commitOk then
    some { executed := tx.base.executed ++ tx.pendingScripts,
           changelog := (tx.pendingEntries.map toEntry).reverse
             ++ tx.base.changelog.filter
                  (fun e => !(tx.pendingDeletes.any (fun i => i == e.id))) }
  else none

/-- MigrationService.executeSingleMigration (lines 124-150): begin, run
the forward script, insert the changelog row, commit; every failure path
rolls the transaction back and returns the error. -/
def executeSingleMigration (execOk : String → Bool) (insertOk : Migration → Bool)
    (commitOk : Bool) (st : DBState) (m : Migration) : DBState × Option RunError :=
  let tx := beginTx st
  match txExecScript execOk tx m.script with
  | none => (st, some (.applyFailed m.id))
  | some tx1 =>
    match txInsertChangelog insertOk tx1 m with
    | none => (st, some (.applyFailed m.id))
    | some tx2 =>
      match commitTx commitOk tx2 with
      | none => (st, some (.applyFailed m.id))
      | some st1 => (st1, none)

/-- executeChangeLog (migrate.go lines 102-115): begin, insert the
changelog row, run the forward script, commit. Its failure paths return
without an explicit rollback, leaving the transaction open; an abandoned
transaction commits nothing, so at the level of committed state this is
the same discard as a rollback. -/
def executeChangeLog (execOk : String → Bool) (insertOk : Migration → Bool)
    (commitOk : Bool) (st : DBState) (m : Migration) : DBState × Option RunError :=
  let tx := beginTx st
  match txInsertChangelog insertOk tx m with
  | none => (st, some (.applyFailed m.id))
  | some tx1 =>
    match txExecScript execOk tx1 m.script with
    | none => (st, some (.applyFailed m.id))
    | some tx2 =>
      match commitTx commitOk tx2 with
      | none => (st, some (.applyFailed m.id))
      | some st1 => (st1, none)

/-
The md5 digest (crypto/md5) over a byte list, 32-bit words as Nat reduced
mod 4294967296. Both loaders call md5.Sum on the exact byte content of the
script and then encode the 16 digest bytes: ReadChangeLogFile with the Go
conversion string(sum[:]) and MigrationService.extractMigration with
hex.EncodeToString(sum[:]).
-/

/-- The state of the md5 compression function: four 32-bit words. -/
structure MD5State where
  a : Nat
  b : Nat
  c : Nat
  d : Nat
deriving DecidableEq, Repr

/-- Rotate a 32-bit word left by n bits. -/
def rotl32 (x n : Nat) : Nat :=
  (x * 2 ^ n) % 4294967296 + x / 2 ^ (32 - n)

/-- The nonlinear function of round i applied to words b, c, d; the
complement of a 32-bit word w is 4294967295 - w. -/
def md5mix (i b c d : Nat) : Nat :=
  if i < 16 then (b &&& c) ||| ((4294967295 - b) &&& d)
  else if i < 32 then (d &&& b) ||| ((4294967295 - d) &&& c)
  else if i < 48 then b ^^^ c ^^^ d
  else c ^^^ (b ||| (4294967295 - d))

/-- The message word index used in round i. -/
def md5g (i : Nat) : Nat :=
  if i < 16 then i
  else if i < 32 then (5 * i + 1) % 16
  else if i < 48 then (3 * i + 5) % 16
  else (7 * i) % 16

/-- The 64 per-round left-rotation amounts. -/
def md5s : List Nat :=
  [7, 12, 17, 22, 7, 12, 17, 22, 7, 12, 17, 22, 7, 12, 17, 22,
   5, 9, 14, 20, 5, 9, 14, 20, 5, 9, 14, 20, 5, 9, 14, 20,
   4, 11, 16, 23, 4, 11, 16, 23, 4, 11, 16, 23, 4, 11, 16, 23,
   6, 10, 15, 21, 6, 10, 15, 21, 6, 10, 15, 21, 6, 10, 15, 21]

/-- The 64 md5 sine constants. -/
def md5k : List Nat :=
  [3614090360, 3905402710, 606105819, 3250441966,
   4118548399, 1200080426, 2821735955, 4249261313,
   1770035416, 2336552879, 4294925233, 2304563134,
   1804603682, 4254626195, 2792965006, 1236535329,
   4129170786, 3225465664, 643717713, 3921069994,
   3593408605, 38016083, 3634488961, 3889429448,
   568446438, 3275163606, 4107603335, 1163531501,
   2850285829, 4243563512, 1735328473, 2368359562,
   4294588738, 2272392833, 1839030562, 4259657740,
   2763975236, 1272893353, 4139469664, 3200236656,
   681279174, 3936430074, 3572445317, 76029189,
   3654602809, 3873151461, 530742520, 3299628645,
   4096336452, 1126891415, 2878612391, 4237533241,
   1700485571, 2399980690, 4293915773, 2240044497,
   1873313359, 4264355552, 2734768916, 1309151649,
   4149444226, 3174756917, 718787259, 3951481745]

/-- One md5 round on the running state, msg being the 16 words of the
current block. -/
def md5Round (msg : List Nat) (st : MD5State) (i : Nat) : MD5State :=
  let f := (md5mix i st.b st.c st.d + st.a + md5k.getD i 0 + msg.getD (md5g i) 0)
    % 4294967296
  ⟨st.d, (st.b + rotl32 f (md5s.getD i 0)) % 4294967296, st.b, st.c⟩

/-- The md5 compression function: 64 rounds over one 16-word block, then
the feed-forward addition. -/
def md5Block (st : MD5State) (msg : List Nat) : MD5State :=
  let r := (List.range 64).foldl (md5Round msg) st
  ⟨(st.a + r.a) % 4294967296, (st.b + r.b) % 4294967296,
   (st.c + r.c) % 4294967296, (st.d + r.d) % 4294967296⟩

/-- Group bytes into little-endian 32-bit words. -/
def wordsLE : List Nat → List Nat
  | b0 :: b1 :: b2 :: b3 :: rest =>
    (b0 + 256 * b1 + 65536 * b2 + 16777216 * b3) :: wordsLE rest
  | _ => []

/-- The four little-endian bytes of a 32-bit word. -/
def wordBytesLE (w : Nat) : List Nat :=
  [w % 256, w / 256 % 256, w / 65536 % 256, w / 16777216 % 256]

/-- The eight little-endian bytes of the 64-bit message bit length. -/
def lenBytesLE (n : Nat) : List Nat :=
  [n % 256, n / 256 % 256, n / 65536 % 256, n / 16777216 % 256,
   n / 4294967296 % 256, n / 1099511627776 % 256,
   n / 281474976710656 % 256, n / 72057594037927936 % 256]

/-- md5 padding: a 128 byte, zeros to 56 mod 64, then the bit length. -/
def md5Pad (msg : List Nat) : List Nat :=
  msg ++ 128 :: (List.replicate ((119 - msg.length % 64) % 64) 0
    ++ lenBytesLE (msg.length * 8))

/-- Split a byte list into 64-byte blocks; the fuel argument (at least the
list length) keeps the recursion structural. -/
def chunksAux : Nat → List Nat → List (List Nat)
  | 0, _ => []
  | _, [] => []
  | fuel + 1, x :: xs => ((x :: xs).take 64) :: chunksAux fuel ((x :: xs).drop 64)

def chunks64 (l : List Nat) : List (List Nat) := chunksAux l.length l

/-- The md5 initialization vector. -/
def md5Init : MD5State := ⟨1732584193, 4023233417, 2562383102, 271733878⟩

/-- md5.Sum of a byte list: the 16 digest bytes. -/
def md5Bytes (msg : List Nat) : List Nat :=
  let final := (chunks64 (md5Pad msg)).foldl
    (fun st chunk => md5Block st (wordsLE chunk)) md5Init
  wordBytesLE final.a ++ wordBytesLE final.b ++ wordBytesLE final.c ++ wordBytesLE final.d

/-- The lowercase hexadecimal digit of a value below 16. -/
def hexDigit (n : Nat) : Char :=
  if n < 10 then Char.ofNat (48 + n) else Char.ofNat (87 + n)

/-- hex.EncodeToString: two lowercase hexadecimal digits per byte. -/
def hexEncodeToString (bytes : List Nat) : String :=
  String.mk (bytes.foldr (fun b acc => hexDigit (b / 16) :: hexDigit (b % 16) :: acc) [])

/-- The Go conversion string(sum[:]): the raw digest bytes as a byte
string, each byte becoming the character with that code. -/
def rawByteString (bytes : List Nat) : String :=
  String.mk (bytes.map Char.ofNat)

/-- The byte content of an ASCII script: for a script whose characters all
lie in the ASCII range, the UTF-8 bytes are the character codes. -/
def asciiBytes (s : String) : List Nat := s.data.map Char.toNat

/-- The checksum ReadChangeLogFile records (migrate.go lines 82-83):
string(md5.Sum([]byte(script))[:]). -/
def readChangeLogFileChecksum (script : String) : String :=
  rawByteString (md5Bytes (asciiBytes script))

/-- The checksum MigrationService.extractMigration records (lines 84-91):
hex.EncodeToString(md5.Sum([]byte(script))[:]). -/
def extractMigrationChecksum (script : String) : String :=
  hexEncodeToString (md5Bytes (asciiBytes script))

/-- A desired map whose keys are pairwise distinct: what the Go map
construction guarantees. -/
def KeysNodup (m : List Migration) : Prop := m.Pairwise (fun a b => a.id ≠ b.id)

/-
Concrete migrations and changelog rows used in closed instances: mA and mB
are two declared migrations, kFile a declared migration whose script hash
is cknew, kEntryOld the changelog row recorded for K before its script
drifted, kEntryNew the row matching kFile, uEntry and vEntry rows whose
ids are no longer desired.
-/

def mA : Migration := ⟨"A", "create table a", "drop table a", "ca"⟩

def mB : Migration := ⟨"B", "create table b", "drop table b", "cb"⟩

def kFile : Migration := ⟨"K", "create table k", "drop table k", "cknew"⟩

def kEntryOld : Migration := ⟨"K", "", "drop table k", "ckold"⟩

def kEntryNew : Migration := ⟨"K", "", "drop table k", "cknew"⟩

def uEntry : Migration := ⟨"U", "", "drop table u", "cu"⟩

def vEntry : Migration := ⟨"V", "", "drop table v", "cv"⟩

/-! Facts about the id-keyed map built by the Go map assignment loop. -/

theorem mem_mapUpsert (mig b : Migration) :
    ∀ m : List Migration, b ∈ mapUpsert m mig → b ∈ m ∨ b = mig := by
  intro m
  induction m with
  | nil =>
    intro h
    simp only [mapUpsert, List.mem_singleton] at h
    exact Or.inr h
  | cons e rest ih =>
    intro h
    by_cases hid : (e.id == mig.id) = true
    · simp only [mapUpsert, hid, if_pos, List.mem_cons] at h
      rcases h with h | h
      · exact Or.inr h
      · exact Or.inl (List.mem_cons_of_mem _ h)
    · simp only [mapUpsert, hid, if_neg, Bool.false_eq_true, not_false_iff,
        List.mem_cons] at h
      rcases h with h | h
      · exact Or.inl (by simp [h])
      · rcases ih h with h1 | h1
        · exact Or.inl (List.mem_cons_of_mem _ h1)
        · exact Or.inr h1

theorem keysNodup_mapUpsert (mig : Migration) :
    ∀ m : List Migration, KeysNodup m → KeysNodup (mapUpsert m mig) := by
  intro m
  induction m with
  | nil =>
    intro _
    simp [mapUpsert, KeysNodup]
  | cons e rest ih =>
    intro h
    rw [KeysNodup, List.pairwise_cons] at h
    by_cases hid : (e.id == mig.id) = true
    · have heq : e.id = mig.id := by simpa using hid
      simp only [mapUpsert, hid, if_pos]
      rw [KeysNodup, List.pairwise_cons]
      exact ⟨fun b hb => heq ▸ h.1 b hb, h.2⟩
    · simp only [mapUpsert, hid, if_neg, Bool.false_eq_true, not_false_iff]
      rw [KeysNodup, List.pairwise_cons]
      refine ⟨fun b hb => ?_, ih h.2⟩
      rcases mem_mapUpsert mig b rest hb with hb1 | hb1
      · exact h.1 b hb1
      · subst hb1
        simpa using hid

theorem keysNodup_foldl (l : List Migration) :
    ∀ M : List Migration, KeysNodup M → KeysNodup (l.foldl mapUpsert M) := by
  induction l with
  | nil => intro M h; simpa using h
  | cons hd tl ih =>
    intro M h
    rw [List.foldl_cons]
    exact ih _ (keysNodup_mapUpsert hd M h)

theorem keysNodup_convertMigrationToMap (l : List Migration) :
    KeysNodup (convertMigrationToMap l) :=
  keysNodup_foldl l [] (by simp [KeysNodup])

theorem mapLookup_mapUpsert (mig : Migration) (i : String) :
    ∀ m : List Migration, mapLookup (mapUpsert m mig) i =
      if mig.id == i then some mig else mapLookup m i := by
  intro m
  induction m with
  | nil =>
    by_cases hi : (mig.id == i) = true <;>
      simp [mapUpsert, mapLookup, List.find?, hi]
  | cons e rest ih =>
    by_cases hid : (e.id == mig.id) = true
    · have heq : e.id = mig.id := by simpa using hid
      by_cases hi : (mig.id == i) = true
      · have : (e.id == i) = true := by simp [heq]; simpa using hi
        simp [mapUpsert, hid, mapLookup, List.find?, hi]
      · have hei : (e.id == i) = false := by
          rw [heq]; simpa using hi
        simp [mapUpsert, hid, mapLookup, List.find?, hi, hei]
    · by_cases hpe : (e.id == i) = true
      · have hi : (mig.id == i) = false := by
          have h1 : e.id = i := by simpa using hpe
          by_contra hc
          have h2 : mig.id = i := by
            simpa using (Bool.not_eq_false _).mp hc
          exact absurd (by simp [h1, h2] : (e.id == mig.id) = true) hid
        simp [mapUpsert, hid, mapLookup, List.find?, hpe, hi]
      · simp only [mapUpsert, hid, if_neg, Bool.false_eq_true, not_false_iff]
        rw [show mapLookup (e :: mapUpsert rest mig) i
            = List.find? (fun x => x.id == i) (e :: mapUpsert rest mig) from rfl]
        rw [List.find?_cons_of_neg _ (by simp [hpe])]
        rw [show List.find? (fun x => x.id == i) (mapUpsert rest mig)
            = mapLookup (mapUpsert rest mig) i from rfl, ih]
        by_cases hi : (mig.id == i) = true
        · simp [hi]
        · simp only [hi, Bool.false_eq_true, if_neg, not_false_iff]
          rw [show mapLookup (e :: rest) i
              = List.find? (fun x => x.id == i) (e :: rest) from rfl]
          rw [List.find?_cons_of_neg _ (by simp [hpe])]
          rfl

theorem mapLookup_self (m : Migration) :
    ∀ M : List Migration, KeysNodup M → m ∈ M → mapLookup M m.id = some m := by
  intro M
  induction M with
  | nil => intro _ hm; simp at hm
  | cons e rest ih =>
    intro h hm
    rw [KeysNodup, List.pairwise_cons] at h
    rcases List.mem_cons.mp hm with rfl | hm1
    · rw [show mapLookup (m :: rest) m.id
          = List.find? (fun x => x.id == m.id) (m :: rest) from rfl]
      rw [List.find?_cons_of_pos _ (by simp)]
    · have hne : (e.id == m.id) = false := by
        have := h.1 m hm1
        simpa using this
      rw [show mapLookup (e :: rest) m.id
          = List.find? (fun x => x.id == m.id) (e :: rest) from rfl]
      rw [List.find?_cons_of_neg _ (by simp [hne])]
      exact ih h.2 hm1

theorem mapLookup_foldl_mapUpsert (i : String) :
    ∀ l M : List Migration,
      mapLookup (l.foldl mapUpsert M) i =
        ((l.reverse.find? (fun m => m.id == i)).or (mapLookup M i)) := by
  intro l
  induction l with
  | nil => intro M; simp
  | cons hd tl ih =>
    intro M
    rw [List.foldl_cons, ih, List.reverse_cons, List.find?_append]
    cases htl : tl.reverse.find? (fun m => m.id == i) with
    | some m => simp
    | none =>
      simp only [Option.none_or]
      rw [mapLookup_mapUpsert]
      by_cases hh : (hd.id == i) = true <;> simp [List.find?, hh]

/-! Facts about the checkExistingChangelogs walk of the service. -/

theorem checkWalk_none_eq (revertOk : Migration → Bool) (M : List Migration) :
    ∀ (lst : List Migration) (flag : Bool) (rs : List Migration),
    MigrationService.checkWalk revertOk M flag lst = (rs, none) →
    rs = lst.filter (fun e => (mapLookup M e.id).isNone) ∧
    ∀ e ∈ lst, ∀ m, mapLookup M e.id = some m → e.checksum = m.checksum := by
  intro lst
  induction lst with
  | nil =>
    intro flag rs h
    simp only [MigrationService.checkWalk, Prod.mk.injEq] at h
    rw [← h.1]
    simp
  | cons e rest ih =>
    intro flag rs h
    rw [MigrationService.checkWalk] at h
    cases hm : mapLookup M e.id with
    | some m =>
      rw [hm] at h
      by_cases hc : e.checksum = m.checksum
      · simp only [hc, bne_self_eq_false, Bool.false_eq_true, if_neg,
          not_false_iff] at h
        obtain ⟨h1, h2⟩ := ih true rs h
        refine ⟨?_, ?_⟩
        · rw [List.filter_cons, h1]
          simp [hm]
        · intro x hx m1 hm1
          rcases List.mem_cons.mp hx with rfl | hx1
          · rw [hm] at hm1
            cases hm1
            exact hc
          · exact h2 x hx1 m1 hm1
      · have : (e.checksum != m.checksum) = true := by
          simpa [bne_iff_ne] using hc
        simp [this] at h
    | none =>
      rw [hm] at h
      cases flag with
      | true => simp at h
      | false =>
        simp only [Bool.false_eq_true, if_neg, not_false_iff] at h
        by_cases hr : revertOk e = true
        · rw [if_pos hr] at h
          rcases hw : MigrationService.checkWalk revertOk M false rest
            with ⟨rs1, err1⟩
          rw [hw] at h
          simp only [Prod.mk.injEq] at h
          obtain ⟨hrs, herr⟩ := h
          subst herr
          obtain ⟨h1, h2⟩ := ih false rs1 hw
          refine ⟨?_, ?_⟩
          · rw [← hrs, List.filter_cons]
            simp [hm, h1]
          · intro x hx m1 hm1
            rcases List.mem_cons.mp hx with rfl | hx1
            · rw [hm] at hm1
              cases hm1
            · exact h2 x hx1 m1 hm1
        · rw [if_neg hr] at h
          simp at h

theorem checkWalk_all_kept (revertOk : Migration → Bool) (M : List Migration) :
    ∀ (lst : List Migration) (flag : Bool),
    (∀ e ∈ lst, ∃ m, mapLookup M e.id = some m ∧ e.checksum = m.checksum) →
    MigrationService.checkWalk revertOk M flag lst = ([], none) := by
  intro lst
  induction lst with
  | nil => intro flag _; rfl
  | cons e rest ih =>
    intro flag h
    obtain ⟨m, hm, hc⟩ := h e (List.mem_cons_self e rest)
    rw [MigrationService.checkWalk, hm]
    simp only [hc, bne_self_eq_false, Bool.false_eq_true, if_neg, not_false_iff]
    exact ih true (fun x hx => h x (List.mem_cons_of_mem _ hx))

theorem applyLoop_none_eq (applyOk : Migration → Bool) (existing : List Migration) :
    ∀ (order as : List Migration),
    MigrationService.applyLoop applyOk existing order = (as, none) →
    as = order.filter (fun m => !(existing.any (fun e => e.id == m.id))) := by
  intro order
  induction order with
  | nil =>
    intro as h
    simp only [MigrationService.applyLoop, Prod.mk.injEq] at h
    rw [← h.1]
    simp
  | cons m rest ih =>
    intro as h
    rw [MigrationService.applyLoop] at h
    by_cases hp : existing.any (fun e => e.id == m.id) = true
    · rw [if_pos hp] at h
      rw [List.filter_cons]
      simp only [hp, Bool.not_true, Bool.false_eq_true, if_neg, not_false_iff]
      exact ih as h
    · rw [if_neg hp] at h
      by_cases ha : applyOk m = true
      · rw [if_pos ha] at h
        rcases hr : MigrationService.applyLoop applyOk existing rest with ⟨as1, err1⟩
        rw [hr] at h
        simp only [Prod.mk.injEq] at h
        obtain ⟨has, herr⟩ := h
        subst herr
        rw [← has, List.filter_cons]
        have hp1 : (existing.any (fun e => e.id == m.id)) = false :=
          Bool.not_eq_true _ ▸ (by simpa using hp)
        simp only [hp1, Bool.not_false, if_pos]
        rw [ih as1 hr]
      · rw [if_neg ha] at h
        simp at h

theorem applyLoop_all_present (applyOk : Migration → Bool) (existing : List Migration) :
    ∀ order : List Migration,
    (∀ m ∈ order, existing.any (fun e => e.id == m.id) = true) →
    MigrationService.applyLoop applyOk existing order = ([], none) := by
  intro order
  induction order with
  | nil => intro _; rfl
  | cons m rest ih =>
    intro h
    rw [MigrationService.applyLoop, if_pos (h m (List.mem_cons_self m rest))]
    exact ih (fun x hx => h x (List.mem_cons_of_mem _ hx))

theorem applyLoop_error_shape (applyOk : Migration → Bool) (existing : List Migration) :
    ∀ (order as : List Migration) (err : RunError),
    MigrationService.applyLoop applyOk existing order = (as, some err) →
    ∃ i, err = .applyFailed i := by
  intro order
  induction order with
  | nil =>
    intro as err h
    simp [MigrationService.applyLoop] at h
  | cons m rest ih =>
    intro as err h
    rw [MigrationService.applyLoop] at h
    by_cases hp : existing.any (fun e => e.id == m.id) = true
    · rw [if_pos hp] at h
      exact ih as err h
    · rw [if_neg hp] at h
      by_cases ha : applyOk m = true
      · rw [if_pos ha] at h
        rcases hr : MigrationService.applyLoop applyOk existing rest with ⟨as1, err1⟩
        rw [hr] at h
        simp only [Prod.mk.injEq] at h
        obtain ⟨-, herr⟩ := h
        subst herr
        exact ih as1 err hr
      · rw [if_neg ha] at h
        simp only [Prod.mk.injEq, Option.some.injEq] at h
        exact ⟨m.id, h.2.symm⟩

theorem checkWalk_mismatch_eq (revertOk : Migration → Bool) (M : List Migration) :
    ∀ (lst : List Migration) (flag : Bool) (rs : List Migration) (i fc dc : String),
    MigrationService.checkWalk revertOk M flag lst
      = (rs, some (.checksumMismatch i fc dc)) →
    ∃ pre d post, lst = pre ++ d :: post ∧ d.id = i ∧ d.checksum = dc ∧
      (∃ m, mapLookup M d.id = some m ∧ m.checksum = fc ∧ d.checksum ≠ m.checksum) ∧
      rs = pre.filter (fun e => (mapLookup M e.id).isNone) := by
  intro lst
  induction lst with
  | nil =>
    intro flag rs i fc dc h
    simp [MigrationService.checkWalk] at h
  | cons e rest ih =>
    intro flag rs i fc dc h
    rw [MigrationService.checkWalk] at h
    cases hm : mapLookup M e.id with
    | some m =>
      rw [hm] at h
      by_cases hc : e.checksum = m.checksum
      · simp only [hc, bne_self_eq_false, Bool.false_eq_true, if_neg,
          not_false_iff] at h
        obtain ⟨pre, d, post, hl, hdi, hdc, hlook, hrs⟩ := ih true rs i fc dc h
        refine ⟨e :: pre, d, post, by rw [hl, List.cons_append], hdi, hdc, hlook, ?_⟩
        rw [List.filter_cons]
        simp [hm, hrs]
      · have hbne : (e.checksum != m.checksum) = true := by
          simpa [bne_iff_ne] using hc
        simp only [hbne, if_pos, Prod.mk.injEq, Option.some.injEq,
          RunError.checksumMismatch.injEq] at h
        obtain ⟨hrs, hi, hfc, hdc⟩ := h
        refine ⟨[], e, rest, rfl, hi, hdc, ⟨m, hm, hfc.symm ▸ rfl, ?_⟩,
          by rw [← hrs]; simp⟩
        · rw [hfc] at hc ⊢
          exact hc
    | none =>
      rw [hm] at h
      cases flag with
      | true => simp at h
      | false =>
        simp only [Bool.false_eq_true, if_neg, not_false_iff] at h
        by_cases hr : revertOk e = true
        · rw [if_pos hr] at h
          rcases hw : MigrationService.checkWalk revertOk M false rest with ⟨rs1, err1⟩
          rw [hw] at h
          simp only [Prod.mk.injEq] at h
          obtain ⟨hrs, herr⟩ := h
          obtain ⟨pre, d, post, hl, hdi, hdc, hlook, hrs1⟩ :=
            ih false rs1 i fc dc (by rw [hw, herr])
          refine ⟨e :: pre, d, post, by rw [hl, List.cons_append], hdi, hdc, hlook, ?_⟩
          rw [← hrs, List.filter_cons]
          simp [hm, hrs1]
        · rw [if_neg hr] at h
          simp at h

theorem checkWalk_nonrevertible_eq (revertOk : Migration → Bool) (M : List Migration) :
    ∀ (lst : List Migration) (flag : Bool) (rs : List Migration),
    MigrationService.checkWalk revertOk M flag lst = (rs, some .nonRevertibleOrder) →
    ∃ pre u post, lst = pre ++ u :: post ∧ mapLookup M u.id = none ∧
      (flag = true ∨ ∃ k ∈ pre, (mapLookup M k.id).isSome = true) ∧
      rs = pre.filter (fun e => (mapLookup M e.id).isNone) := by
  intro lst
  induction lst with
  | nil =>
    intro flag rs h
    simp [MigrationService.checkWalk] at h
  | cons e rest ih =>
    intro flag rs h
    rw [MigrationService.checkWalk] at h
    cases hm : mapLookup M e.id with
    | some m =>
      rw [hm] at h
      by_cases hc : e.checksum = m.checksum
      · simp only [hc, bne_self_eq_false, Bool.false_eq_true, if_neg,
          not_false_iff] at h
        obtain ⟨pre, u, post, hl, hu, _, hrs⟩ := ih true rs h
        refine ⟨e :: pre, u, post, by rw [hl, List.cons_append], hu,
          Or.inr ⟨e, List.mem_cons_self e pre, by simp [hm]⟩, ?_⟩
        rw [List.filter_cons]
        simp [hm, hrs]
      · have hbne : (e.checksum != m.checksum) = true := by
          simpa [bne_iff_ne] using hc
        simp only [hbne, if_pos, Prod.mk.injEq] at h
        exact absurd h.2 (by simp)
    | none =>
      rw [hm] at h
      cases flag with
      | true =>
        simp only [if_pos, Prod.mk.injEq] at h
        exact ⟨[], e, rest, rfl, hm, Or.inl rfl, by simp [← h.1]⟩
      | false =>
        simp only [Bool.false_eq_true, if_neg, not_false_iff] at h
        by_cases hr : revertOk e = true
        · rw [if_pos hr] at h
          rcases hw : MigrationService.checkWalk revertOk M false rest with ⟨rs1, err1⟩
          rw [hw] at h
          simp only [Prod.mk.injEq] at h
          obtain ⟨hrs, herr⟩ := h
          obtain ⟨pre, u, post, hl, hu, hflag, hrs1⟩ := ih false rs1 (by rw [hw, herr])
          rcases hflag with hflag | hflag
          · cases hflag
          · refine ⟨e :: pre, u, post, by rw [hl, List.cons_append], hu,
              Or.inr ?_, ?_⟩
            · obtain ⟨k, hk, hks⟩ := hflag
              exact ⟨k, List.mem_cons_of_mem _ hk, hks⟩
            · rw [← hrs, List.filter_cons]
              simp [hm, hrs1]
        · rw [if_neg hr] at h
          simp at h

/-- How a run of the service decomposes: either the walk stopped with an
error (nothing applied, the reverted rows deleted), or the walk finished
and the apply loop produced the rest of the outcome. -/
theorem service_run_cases (revertOk applyOk : Migration → Bool)
    (migrations iterOrder existing : List Migration) :
    (∃ werr, MigrationService.checkWalk revertOk (convertMigrationToMap migrations)
        false existing
        = ((MigrationService.ExecuteMigration revertOk applyOk migrations iterOrder
            existing).reverts, some werr) ∧
      (MigrationService.ExecuteMigration revertOk applyOk migrations iterOrder
          existing).error = some werr ∧
      (MigrationService.ExecuteMigration revertOk applyOk migrations iterOrder
          existing).applies = [] ∧
      (MigrationService.ExecuteMigration revertOk applyOk migrations iterOrder
          existing).finalLog
        = removeIds existing (MigrationService.ExecuteMigration revertOk applyOk
            migrations iterOrder existing).reverts) ∨
    (MigrationService.checkWalk revertOk (convertMigrationToMap migrations)
        false existing
        = ((MigrationService.ExecuteMigration revertOk applyOk migrations iterOrder
            existing).reverts, none) ∧
      MigrationService.applyLoop applyOk existing iterOrder
        = ((MigrationService.ExecuteMigration revertOk applyOk migrations iterOrder
            existing).applies,
           (MigrationService.ExecuteMigration revertOk applyOk migrations iterOrder
            existing).error) ∧
      (MigrationService.ExecuteMigration revertOk applyOk migrations iterOrder
          existing).finalLog
        = ((MigrationService.ExecuteMigration revertOk applyOk migrations iterOrder
            existing).applies.reverse.map toEntry)
          ++ removeIds existing (MigrationService.ExecuteMigration revertOk applyOk
              migrations iterOrder existing).reverts) := by
  rw [MigrationService.ExecuteMigration, MigrationService.checkExistingChangelogs]
  rcases hw : MigrationService.checkWalk revertOk (convertMigrationToMap migrations)
    false existing with ⟨rs, werr⟩
  cases werr with
  | some e => exact Or.inl ⟨e, rfl, rfl, rfl, rfl⟩
  | none =>
    rcases ha : MigrationService.applyLoop applyOk existing iterOrder with ⟨as, aerr⟩
    exact Or.inr ⟨rfl, rfl, rfl⟩

/-- Claim C1 as stated is false: with desired = [kFile] and applied stack
[uEntry, kEntryOld] (uEntry newest, kEntryOld a kept entry whose recorded
checksum ckold differs from the desired cknew), both implementations fail
with the checksum-mismatch error AND have already reverted uEntry, the
undesired entry newer than the drifted one, so a revert does happen in
that run. -/
theorem c1_counterexample :
    (MigrationService.ExecuteMigration (fun _ => true) (fun _ => true)
      [kFile] [kFile] [uEntry, kEntryOld]).error
      = some (.checksumMismatch "K" "cknew" "ckold") ∧
    (MigrationService.ExecuteMigration (fun _ => true) (fun _ => true)
      [kFile] [kFile] [uEntry, kEntryOld]).reverts = [uEntry] ∧
    (MigrationService.ExecuteMigration (fun _ => true) (fun _ => true)
      [kFile] [kFile] [uEntry, kEntryOld]).finalLog = [kEntryOld] ∧
    (Migrate.ExecuteMigration (fun _ => true) (fun _ => true)
      [kFile] (fun l => l) [uEntry, kEntryOld]).error
      = some (.checksumMismatch "K" "cknew" "ckold") ∧
    (Migrate.ExecuteMigration (fun _ => true) (fun _ => true)
      [kFile] (fun l => l) [uEntry, kEntryOld]).reverts = [uEntry] := by
  decide

/-- Claim C1 amended: when a service run ends in a checksum mismatch, no
migration is applied, and the only mutation of the changelog is the
deletion of rows reverted before the drifted entry was reached; every
reverted row is undesired (not in the map) and lies strictly before
(newer than) the drifted entry in the applied stack. -/
theorem c1_checksum_mismatch_aborts (revertOk applyOk : Migration → Bool)
    (migrations iterOrder existing : List Migration) (i fc dc : String)
    (h : (MigrationService.ExecuteMigration revertOk applyOk migrations iterOrder
        existing).error = some (.checksumMismatch i fc dc)) :
    (MigrationService.ExecuteMigration revertOk applyOk migrations iterOrder
        existing).applies = [] ∧
    (MigrationService.ExecuteMigration revertOk applyOk migrations iterOrder
        existing).finalLog
      = removeIds existing (MigrationService.ExecuteMigration revertOk applyOk
          migrations iterOrder existing).reverts ∧
    ∃ pre d post, existing = pre ++ d :: post ∧ d.id = i ∧ d.checksum = dc ∧
      (∃ m, mapLookup (convertMigrationToMap migrations) d.id = some m ∧
        m.checksum = fc ∧ d.checksum ≠ m.checksum) ∧
      (MigrationService.ExecuteMigration revertOk applyOk migrations iterOrder
          existing).reverts
        = pre.filter (fun e => (mapLookup (convertMigrationToMap migrations) e.id).isNone) := by
  rcases service_run_cases revertOk applyOk migrations iterOrder existing with
    ⟨werr, hw, herr, happ, hlog⟩ | ⟨hw, ha, hlog⟩
  · rw [herr] at h
    cases h
    obtain ⟨pre, d, post, hl, hdi, hdc, hlook, hrs⟩ :=
      checkWalk_mismatch_eq revertOk (convertMigrationToMap migrations)
        existing false _ i fc dc hw
    exact ⟨happ, hlog, pre, d, post, hl, hdi, hdc, hlook, hrs⟩
  · rw [h] at ha
    obtain ⟨j, hj⟩ := applyLoop_error_shape applyOk existing iterOrder _ _ ha
    cases hj

/-- Witness for the amended C1 at a concrete input. -/
theorem c1_witness :
    (MigrationService.ExecuteMigration (fun _ => true) (fun _ => true)
        [kFile] [kFile] [uEntry, kEntryOld]).applies = [] ∧
    (MigrationService.ExecuteMigration (fun _ => true) (fun _ => true)
        [kFile] [kFile] [uEntry, kEntryOld]).finalLog
      = removeIds [uEntry, kEntryOld]
          (MigrationService.ExecuteMigration (fun _ => true) (fun _ => true)
            [kFile] [kFile] [uEntry, kEntryOld]).reverts ∧
    ∃ pre d post, [uEntry, kEntryOld] = pre ++ d :: post ∧ d.id = "K" ∧
      d.checksum = "ckold" ∧
      (∃ m, mapLookup (convertMigrationToMap [kFile]) d.id = some m ∧
        m.checksum = "cknew" ∧ d.checksum ≠ m.checksum) ∧
      (MigrationService.ExecuteMigration (fun _ => true) (fun _ => true)
          [kFile] [kFile] [uEntry, kEntryOld]).reverts
        = pre.filter (fun e => (mapLookup (convertMigrationToMap [kFile]) e.id).isNone) :=
  c1_checksum_mismatch_aborts (fun _ => true) (fun _ => true)
    [kFile] [kFile] [uEntry, kEntryOld] "K" "cknew" "ckold" (by decide)

/-- Claim C2 as stated is false: with desired = [kFile] and applied stack
[uEntry, kEntryNew, vEntry] (uEntry the newest, undesired; kEntryNew kept;
vEntry an undesired entry below the kept one), both implementations fail
with the non-revertible-order error, but the changelog is NOT left
unmodified: uEntry, the undesired entry newer than every kept one, was
already reverted before the failure. -/
theorem c2_counterexample :
    (MigrationService.ExecuteMigration (fun _ => true) (fun _ => true)
      [kFile] [kFile] [uEntry, kEntryNew, vEntry]).error = some .nonRevertibleOrder ∧
    (MigrationService.ExecuteMigration (fun _ => true) (fun _ => true)
      [kFile] [kFile] [uEntry, kEntryNew, vEntry]).reverts = [uEntry] ∧
    (MigrationService.ExecuteMigration (fun _ => true) (fun _ => true)
      [kFile] [kFile] [uEntry, kEntryNew, vEntry]).finalLog = [kEntryNew, vEntry] ∧
    (Migrate.ExecuteMigration (fun _ => true) (fun _ => true)
      [kFile] (fun l => l) [uEntry, kEntryNew, vEntry]).error = some .nonRevertibleOrder ∧
    (Migrate.ExecuteMigration (fun _ => true) (fun _ => true)
      [kFile] (fun l => l) [uEntry, kEntryNew, vEntry]).reverts = [uEntry] := by
  decide

/-- Claim C2 amended: when a service run ends in the non-revertible-order
error, no migration is applied, and the only mutation of the changelog is
the deletion of the undesired rows reverted before the first kept entry;
the failing undesired entry sits below some kept entry, and every reverted
row is an undesired row that came strictly before it in the walk. -/
theorem c2_nonrevertible_aborts (revertOk applyOk : Migration → Bool)
    (migrations iterOrder existing : List Migration)
    (h : (MigrationService.ExecuteMigration revertOk applyOk migrations iterOrder
        existing).error = some .nonRevertibleOrder) :
    (MigrationService.ExecuteMigration revertOk applyOk migrations iterOrder
        existing).applies = [] ∧
    (MigrationService.ExecuteMigration revertOk applyOk migrations iterOrder
        existing).finalLog
      = removeIds existing (MigrationService.ExecuteMigration revertOk applyOk
          migrations iterOrder existing).reverts ∧
    ∃ pre u post, existing = pre ++ u :: post ∧
      mapLookup (convertMigrationToMap migrations) u.id = none ∧
      (∃ k ∈ pre, (mapLookup (convertMigrationToMap migrations) k.id).isSome = true) ∧
      (MigrationService.ExecuteMigration revertOk applyOk migrations iterOrder
          existing).reverts
        = pre.filter (fun e => (mapLookup (convertMigrationToMap migrations) e.id).isNone) := by
  rcases service_run_cases revertOk applyOk migrations iterOrder existing with
    ⟨werr, hw, herr, happ, hlog⟩ | ⟨hw, ha, hlog⟩
  · rw [herr] at h
    cases h
    obtain ⟨pre, u, post, hl, hu, hflag, hrs⟩ :=
      checkWalk_nonrevertible_eq revertOk (convertMigrationToMap migrations)
        existing false _ hw
    rcases hflag with hflag | hflag
    · cases hflag
    · exact ⟨happ, hlog, pre, u, post, hl, hu, hflag, hrs⟩
  · rw [h] at ha
    obtain ⟨j, hj⟩ := applyLoop_error_shape applyOk existing iterOrder _ _ ha
    cases hj

/-- Witness for the amended C2 at a concrete input. -/
theorem c2_witness :
    (MigrationService.ExecuteMigration (fun _ => true) (fun _ => true)
        [kFile] [kFile] [uEntry, kEntryNew, vEntry]).applies = [] ∧
    (MigrationService.ExecuteMigration (fun _ => true) (fun _ => true)
        [kFile] [kFile] [uEntry, kEntryNew, vEntry]).finalLog
      = removeIds [uEntry, kEntryNew, vEntry]
          (MigrationService.ExecuteMigration (fun _ => true) (fun _ => true)
            [kFile] [kFile] [uEntry, kEntryNew, vEntry]).reverts ∧
    ∃ pre u post, [uEntry, kEntryNew, vEntry] = pre ++ u :: post ∧
      mapLookup (convertMigrationToMap [kFile]) u.id = none ∧
      (∃ k ∈ pre, (mapLookup (convertMigrationToMap [kFile]) k.id).isSome = true) ∧
      (MigrationService.ExecuteMigration (fun _ => true) (fun _ => true)
          [kFile] [kFile] [uEntry, kEntryNew, vEntry]).reverts
        = pre.filter (fun e => (mapLookup (convertMigrationToMap [kFile]) e.id).isNone) :=
  c2_nonrevertible_aborts (fun _ => true) (fun _ => true)
    [kFile] [kFile] [uEntry, kEntryNew, vEntry] (by decide)

/-- Claim C3: the two implementations disagree. With an empty desired set,
applied stack [uEntry, vEntry] and the revert of uEntry failing, migrate.go
ExecuteMigration (line 41 calls revertScript and discards its error)
returns NO error, leaves the failed row in place, and CONTINUES the walk,
still reverting the older vEntry — a failed revert silently skipped. The
service (lines 188-190) propagates the failure and aborts with nothing
reverted. -/
theorem c3_legacy_ignores_failed_revert :
    (Migrate.ExecuteMigration (fun m => m.id != "U") (fun _ => true)
      [] (fun l => l) [uEntry, vEntry]).error = none ∧
    (Migrate.ExecuteMigration (fun m => m.id != "U") (fun _ => true)
      [] (fun l => l) [uEntry, vEntry]).reverts = [vEntry] ∧
    (Migrate.ExecuteMigration (fun m => m.id != "U") (fun _ => true)
      [] (fun l => l) [uEntry, vEntry]).finalLog = [uEntry] ∧
    (MigrationService.ExecuteMigration (fun m => m.id != "U") (fun _ => true)
      [] [] [uEntry, vEntry]).error = some (.revertFailed "U") ∧
    (MigrationService.ExecuteMigration (fun m => m.id != "U") (fun _ => true)
      [] [] [uEntry, vEntry]).reverts = [] := by
  decide

/-- Claim C4: the apply phase of both implementations ranges over a Go map,
whose iteration order is unspecified. With declared order [mA, mB] (ids
"A" then "B") and an empty changelog, the iteration order [mB, mA] is a
permutation of the desired map, and under it both implementations apply
["B", "A"] — not the declared sequence ["A", "B"] — so the apply order is
whatever the map iteration yields, not the declared one. -/
theorem c4_apply_order_follows_map_iteration :
    List.Perm [mB, mA] (convertMigrationToMap [mA, mB]) ∧
    [mA, mB].map (fun m => m.id) = ["A", "B"] ∧
    (MigrationService.ExecuteMigration (fun _ => true) (fun _ => true)
      [mA, mB] [mB, mA] []).error = none ∧
    (MigrationService.ExecuteMigration (fun _ => true) (fun _ => true)
      [mA, mB] [mB, mA] []).applies.map (fun m => m.id) = ["B", "A"] ∧
    (Migrate.ExecuteMigration (fun _ => true) (fun _ => true)
      [mA, mB] List.reverse []).error = none ∧
    (Migrate.ExecuteMigration (fun _ => true) (fun _ => true)
      [mA, mB] List.reverse []).applies.map (fun m => m.id) = ["B", "A"] ∧
    (["B", "A"] = ["A", "B"]) = False := by
  refine ⟨by decide, by decide, by decide, by decide, by decide, by decide, by simp⟩

/-- Claim C5: applying one migration is atomic in both implementations.
Whatever the script, bookkeeping and commit outcomes, either the call
succeeds and the committed state gains exactly the executed script and the
changelog row on top, or the call fails and the committed state is exactly
the starting state — never a changelog row without the script or the
script without its row. -/
theorem c5_apply_is_atomic (execOk : String → Bool) (insertOk : Migration → Bool)
    (commitOk : Bool) (st : DBState) (m : Migration) :
    (((executeSingleMigration execOk insertOk commitOk st m).2 = none →
        (executeSingleMigration execOk insertOk commitOk st m).1
          = ⟨st.executed ++ [m.script], toEntry m :: st.changelog⟩) ∧
      ((executeSingleMigration execOk insertOk commitOk st m).2 ≠ none →
        (executeSingleMigration execOk insertOk commitOk st m).1 = st)) ∧
    (((executeChangeLog execOk insertOk commitOk st m).2 = none →
        (executeChangeLog execOk insertOk commitOk st m).1
          = ⟨st.executed ++ [m.script], toEntry m :: st.changelog⟩) ∧
      ((executeChangeLog execOk insertOk commitOk st m).2 ≠ none →
        (executeChangeLog execOk insertOk commitOk st m).1 = st)) := by
  cases he : execOk m.script <;> cases hi : insertOk m <;> cases hc : commitOk <;>
    simp [executeSingleMigration, executeChangeLog, beginTx, txExecScript,
      txInsertChangelog, commitTx, he, hi, List.filter_true]

/-- Claim C9: building the desired map keeps, for every id, exactly the
LAST occurrence in the declared list (Go map assignment overwrites), and
the resulting map has at most one entry per id; the construction is total,
so duplicate identifiers never raise an error. -/
theorem c9_duplicate_ids_last_wins (migrations : List Migration) (i : String) :
    KeysNodup (convertMigrationToMap migrations) ∧
    mapLookup (convertMigrationToMap migrations) i
      = migrations.reverse.find? (fun m => m.id == i) := by
  refine ⟨keysNodup_convertMigrationToMap migrations, ?_⟩
  rw [convertMigrationToMap, mapLookup_foldl_mapUpsert]
  cases h : migrations.reverse.find? (fun m => m.id == i) <;>
    simp [mapLookup, List.find?]

/-- With an empty desired map every changelog entry is undesired, and if
every revert commits the walk reverts the whole stack in order. -/
theorem checkWalk_empty_map (revertOk : Migration → Bool) :
    ∀ lst : List Migration, (∀ e ∈ lst, revertOk e = true) →
    MigrationService.checkWalk revertOk [] false lst = (lst, none) := by
  intro lst
  induction lst with
  | nil => intro _; rfl
  | cons e rest ih =>
    intro h
    rw [MigrationService.checkWalk]
    have hm : mapLookup [] e.id = none := rfl
    rw [hm]
    simp only [Bool.false_eq_true, if_neg, not_false_iff,
      h e (List.mem_cons_self e rest), if_pos]
    rw [ih (fun x hx => h x (List.mem_cons_of_mem _ hx))]

/-- Deleting every row of the changelog leaves it empty. -/
theorem removeIds_self (l : List Migration) : removeIds l l = [] := by
  rw [removeIds, List.filter_eq_nil_iff]
  intro e he
  have h1 : l.any (fun r => r.id == e.id) = true :=
    List.any_eq_true.mpr ⟨e, he, by simp⟩
  simp [h1]

/-- Claim C10: with an empty desired set and any applied changelog whose
reverts all commit, the service run reverts every recorded entry in
newest-first order (the snapshot order), applies nothing, succeeds, and
leaves the changelog empty. -/
theorem c10_empty_desired_full_teardown (revertOk applyOk : Migration → Bool)
    (existing : List Migration)
    (hrev : ∀ e ∈ existing, revertOk e = true) :
    (MigrationService.ExecuteMigration revertOk applyOk [] [] existing).reverts
      = existing ∧
    (MigrationService.ExecuteMigration revertOk applyOk [] [] existing).applies = [] ∧
    (MigrationService.ExecuteMigration revertOk applyOk [] [] existing).error = none ∧
    (MigrationService.ExecuteMigration revertOk applyOk [] [] existing).finalLog = [] := by
  have hmap : convertMigrationToMap [] = [] := rfl
  rw [MigrationService.ExecuteMigration, MigrationService.checkExistingChangelogs, hmap,
    checkWalk_empty_map revertOk existing hrev]
  simp [MigrationService.applyLoop, removeIds_self]

/-- Witness for C10 at a concrete input. -/
theorem c10_witness :
    (MigrationService.ExecuteMigration (fun _ => true) (fun _ => true)
        [] [] [uEntry, vEntry]).reverts = [uEntry, vEntry] ∧
    (MigrationService.ExecuteMigration (fun _ => true) (fun _ => true)
        [] [] [uEntry, vEntry]).applies = [] ∧
    (MigrationService.ExecuteMigration (fun _ => true) (fun _ => true)
        [] [] [uEntry, vEntry]).error = none ∧
    (MigrationService.ExecuteMigration (fun _ => true) (fun _ => true)
        [] [] [uEntry, vEntry]).finalLog = [] :=
  c10_empty_desired_full_teardown (fun _ => true) (fun _ => true)
    [uEntry, vEntry] (by decide)

/-- Distinct keys give distinct entries. -/
theorem nodup_of_keysNodup {m : List Migration} (h : KeysNodup m) : m.Nodup :=
  h.imp (fun hid heq => hid (by rw [heq]))

/-- Claim C7: in a successful service run, every migration executed by the
apply phase is a desired one whose id is absent from the applied changelog
snapshot, and every desired map entry is executed exactly once when its id
is absent from the changelog and never when it is present (no
double-apply). -/
theorem c7_no_double_apply (revertOk applyOk : Migration → Bool)
    (migrations iterOrder existing : List Migration)
    (hperm : List.Perm iterOrder (convertMigrationToMap migrations))
    (hok : (MigrationService.ExecuteMigration revertOk applyOk migrations iterOrder
        existing).error = none) :
    (∀ a ∈ (MigrationService.ExecuteMigration revertOk applyOk migrations iterOrder
        existing).applies,
      (mapLookup (convertMigrationToMap migrations) a.id).isSome = true ∧
      existing.any (fun e => e.id == a.id) = false) ∧
    (∀ m ∈ convertMigrationToMap migrations,
      (existing.any (fun e => e.id == m.id) = true →
        (MigrationService.ExecuteMigration revertOk applyOk migrations iterOrder
          existing).applies.count m = 0) ∧
      (existing.any (fun e => e.id == m.id) = false →
        (MigrationService.ExecuteMigration revertOk applyOk migrations iterOrder
          existing).applies.count m = 1)) := by
  rcases service_run_cases revertOk applyOk migrations iterOrder existing with
    ⟨werr, hw, herr, happ, hlog⟩ | ⟨hw, ha, hlog⟩
  · rw [herr] at hok
    cases hok
  · rw [hok] at ha
    have has := applyLoop_none_eq applyOk existing iterOrder _ ha
    constructor
    · intro a hmem
      rw [has] at hmem
      obtain ⟨hin, hpred⟩ := List.mem_filter.mp hmem
      have hM : a ∈ convertMigrationToMap migrations := hperm.mem_iff.mp hin
      refine ⟨?_, by simpa using hpred⟩
      rw [mapLookup_self a _ (keysNodup_convertMigrationToMap migrations) hM]
      rfl
    · intro m hmM
      have hcount : iterOrder.count m = 1 := by
        rw [hperm.count_eq m]
        exact List.count_eq_one_of_mem
          (nodup_of_keysNodup (keysNodup_convertMigrationToMap migrations)) hmM
      constructor
      · intro hany
        rw [has, List.count_eq_zero]
        intro hmem
        have hpred := (List.mem_filter.mp hmem).2
        simp [hany] at hpred
      · intro hany
        rw [has, List.count_filter (by simp [hany])]
        exact hcount

/-- Witness for C7 at a concrete input: desired [mA, mB], changelog
holding only the row for mA. -/
theorem c7_witness :
    (∀ a ∈ (MigrationService.ExecuteMigration (fun _ => true) (fun _ => true)
        [mA, mB] [mB, mA] [toEntry mA]).applies,
      (mapLookup (convertMigrationToMap [mA, mB]) a.id).isSome = true ∧
      [toEntry mA].any (fun e => e.id == a.id) = false) ∧
    (∀ m ∈ convertMigrationToMap [mA, mB],
      ([toEntry mA].any (fun e => e.id == m.id) = true →
        (MigrationService.ExecuteMigration (fun _ => true) (fun _ => true)
          [mA, mB] [mB, mA] [toEntry mA]).applies.count m = 0) ∧
      ([toEntry mA].any (fun e => e.id == m.id) = false →
        (MigrationService.ExecuteMigration (fun _ => true) (fun _ => true)
          [mA, mB] [mB, mA] [toEntry mA]).applies.count m = 1)) :=
  c7_no_double_apply (fun _ => true) (fun _ => true) [mA, mB] [mB, mA]
    [toEntry mA] (by decide) (by decide)

/-- Claim C6: reconciliation is idempotent. If a service run with desired
set migrations succeeds, a second run with the same desired set on the
changelog the first run left behind reverts nothing, applies nothing and
succeeds — whatever map iteration orders the two runs saw and whatever the
transaction oracles of the second run are. -/
theorem c6_idempotent (revertOk applyOk revertOk2 applyOk2 : Migration → Bool)
    (migrations iter1 iter2 existing : List Migration)
    (h1 : List.Perm iter1 (convertMigrationToMap migrations))
    (h2 : List.Perm iter2 (convertMigrationToMap migrations))
    (hok : (MigrationService.ExecuteMigration revertOk applyOk migrations iter1
        existing).error = none) :
    (MigrationService.ExecuteMigration revertOk2 applyOk2 migrations iter2
      (MigrationService.ExecuteMigration revertOk applyOk migrations iter1
        existing).finalLog).reverts = [] ∧
    (MigrationService.ExecuteMigration revertOk2 applyOk2 migrations iter2
      (MigrationService.ExecuteMigration revertOk applyOk migrations iter1
        existing).finalLog).applies = [] ∧
    (MigrationService.ExecuteMigration revertOk2 applyOk2 migrations iter2
      (MigrationService.ExecuteMigration revertOk applyOk migrations iter1
        existing).finalLog).error = none := by
  rcases service_run_cases revertOk applyOk migrations iter1 existing with
    ⟨werr, hw, herr, happ, hlog⟩ | ⟨hw, ha, hlog⟩
  · rw [herr] at hok
    cases hok
  · rw [hok] at ha
    obtain ⟨hrs, hkept⟩ := checkWalk_none_eq revertOk
      (convertMigrationToMap migrations) existing false _ hw
    have has := applyLoop_none_eq applyOk existing iter1 _ ha
    have hfin : ∀ e ∈ (MigrationService.ExecuteMigration revertOk applyOk migrations
        iter1 existing).finalLog,
        ∃ m, mapLookup (convertMigrationToMap migrations) e.id = some m ∧
          e.checksum = m.checksum := by
      intro e he
      rw [hlog] at he
      rcases List.mem_append.mp he with he1 | he1
      · obtain ⟨a, haMem, rfl⟩ := List.mem_map.mp he1
        have haIn : a ∈ iter1 := by
          have hrev := List.mem_reverse.mp haMem
          rw [has] at hrev
          exact (List.mem_filter.mp hrev).1
        have haM : a ∈ convertMigrationToMap migrations := h1.mem_iff.mp haIn
        exact ⟨a, mapLookup_self a _ (keysNodup_convertMigrationToMap migrations) haM,
          rfl⟩
      · have heEx : e ∈ existing := (List.mem_filter.mp he1).1
        have hnotrev := (List.mem_filter.mp he1).2
        cases hlook : mapLookup (convertMigrationToMap migrations) e.id with
        | none =>
          have heRev : e ∈ (MigrationService.ExecuteMigration revertOk applyOk
              migrations iter1 existing).reverts := by
            rw [hrs]
            exact List.mem_filter.mpr ⟨heEx, by rw [hlook]; rfl⟩
          have hany : ((MigrationService.ExecuteMigration revertOk applyOk migrations
              iter1 existing).reverts.any (fun r => r.id == e.id)) = true :=
            List.any_eq_true.mpr ⟨e, heRev, by simp⟩
          rw [hany] at hnotrev
          cases hnotrev
        | some m => exact ⟨m, rfl, hkept e heEx m hlook⟩
    have hwalk2 := checkWalk_all_kept revertOk2 (convertMigrationToMap migrations)
      ((MigrationService.ExecuteMigration revertOk applyOk migrations iter1
        existing).finalLog) false hfin
    have hpres : ∀ m ∈ iter2,
        ((MigrationService.ExecuteMigration revertOk applyOk migrations iter1
          existing).finalLog.any (fun e => e.id == m.id)) = true := by
      intro m hm2
      have hmM : m ∈ convertMigrationToMap migrations := h2.mem_iff.mp hm2
      by_cases hc : existing.any (fun e => e.id == m.id) = true
      · obtain ⟨e, heEx, heid⟩ := List.any_eq_true.mp hc
        have heq : e.id = m.id := by simpa using heid
        have hsome : (mapLookup (convertMigrationToMap migrations) e.id).isSome = true := by
          rw [heq, mapLookup_self m _ (keysNodup_convertMigrationToMap migrations) hmM]
          rfl
        have hnotrev : ((MigrationService.ExecuteMigration revertOk applyOk migrations
            iter1 existing).reverts.any (fun r => r.id == e.id)) = false := by
          cases hval : ((MigrationService.ExecuteMigration revertOk applyOk migrations
              iter1 existing).reverts.any (fun r => r.id == e.id)) with
          | false => rfl
          | true =>
            obtain ⟨r, hrMem, hrid⟩ := List.any_eq_true.mp hval
            rw [hrs] at hrMem
            have hrnone := (List.mem_filter.mp hrMem).2
            have hreq : r.id = e.id := by simpa using hrid
            rw [hreq] at hrnone
            rw [Option.isNone_iff_eq_none] at hrnone
            rw [hrnone] at hsome
            cases hsome
        have heFin : e ∈ (MigrationService.ExecuteMigration revertOk applyOk
            migrations iter1 existing).finalLog := by
          rw [hlog]
          exact List.mem_append.mpr (Or.inr
            (List.mem_filter.mpr ⟨heEx, by rw [hnotrev]; rfl⟩))
        exact List.any_eq_true.mpr ⟨e, heFin, by simp [heq]⟩
      · have hmIter : m ∈ iter1 := h1.mem_iff.mpr hmM
        have hcf : existing.any (fun e => e.id == m.id) = false := by
          cases hval : existing.any (fun e => e.id == m.id) with
          | false => rfl
          | true => exact absurd hval hc
        have hmApp : m ∈ (MigrationService.ExecuteMigration revertOk applyOk
            migrations iter1 existing).applies := by
          rw [has]
          exact List.mem_filter.mpr ⟨hmIter, by rw [hcf]; rfl⟩
        have hmFin : toEntry m ∈ (MigrationService.ExecuteMigration revertOk applyOk
            migrations iter1 existing).finalLog := by
          rw [hlog]
          exact List.mem_append.mpr (Or.inl
            (List.mem_map.mpr ⟨m, List.mem_reverse.mpr hmApp, rfl⟩))
        exact List.any_eq_true.mpr ⟨toEntry m, hmFin, by simp [toEntry]⟩
    have happly2 := applyLoop_all_present applyOk2
      ((MigrationService.ExecuteMigration revertOk applyOk migrations iter1
        existing).finalLog) iter2 hpres
    rcases service_run_cases revertOk2 applyOk2 migrations iter2
      ((MigrationService.ExecuteMigration revertOk applyOk migrations iter1
        existing).finalLog) with
      ⟨werr2, hw2, herr2, happ2, hlog2⟩ | ⟨hw2, ha2, hlog2⟩
    · rw [hwalk2] at hw2
      have := (Prod.mk.injEq _ _ _ _).mp hw2
      cases this.2
    · rw [hwalk2] at hw2
      have hinj := (Prod.mk.injEq _ _ _ _).mp hw2
      rw [happly2] at ha2
      have hinj2 := (Prod.mk.injEq _ _ _ _).mp ha2
      exact ⟨hinj.1.symm, hinj2.1.symm, hinj2.2.symm⟩

/-- Witness for C6 at a concrete input: desired [mA] applied onto an empty
changelog, then reconciled again. -/
theorem c6_witness :
    (MigrationService.ExecuteMigration (fun _ => true) (fun _ => true) [mA] [mA]
      (MigrationService.ExecuteMigration (fun _ => true) (fun _ => true) [mA] [mA]
        []).finalLog).reverts = [] ∧
    (MigrationService.ExecuteMigration (fun _ => true) (fun _ => true) [mA] [mA]
      (MigrationService.ExecuteMigration (fun _ => true) (fun _ => true) [mA] [mA]
        []).finalLog).applies = [] ∧
    (MigrationService.ExecuteMigration (fun _ => true) (fun _ => true) [mA] [mA]
      (MigrationService.ExecuteMigration (fun _ => true) (fun _ => true) [mA] [mA]
        []).finalLog).error = none :=
  c6_idempotent (fun _ => true) (fun _ => true) (fun _ => true) (fun _ => true)
    [mA] [mA] [mA] [] (by decide) (by decide) (by decide)

/-- The hex encoding writes two characters per byte. -/
theorem hexEncodeToString_length : ∀ bytes : List Nat,
    (hexEncodeToString bytes).length = 2 * bytes.length := by
  intro bytes
  induction bytes with
  | nil => rfl
  | cons b rest ih =>
    show (hexDigit (b / 16) :: hexDigit (b % 16) ::
        (rest.foldr (fun b acc => hexDigit (b / 16) :: hexDigit (b % 16) :: acc)
          [])).length = 2 * (rest.length + 1)
    rw [List.length_cons, List.length_cons]
    have : (rest.foldr (fun b acc => hexDigit (b / 16) :: hexDigit (b % 16) :: acc)
        []).length = 2 * rest.length := ih
    omega

/-- An md5 digest always has 16 bytes. -/
theorem md5Bytes_length (msg : List Nat) : (md5Bytes msg).length = 16 := by
  simp [md5Bytes, wordBytesLE]

/-- Each byte of a word decomposition is below 256. -/
theorem wordBytesLE_lt (w : Nat) : ∀ b ∈ wordBytesLE w, b < 256 := by
  intro b hb
  simp [wordBytesLE] at hb
  rcases hb with h | h | h | h <;> omega

/-- Each byte of an md5 digest is below 256. -/
theorem md5Bytes_lt (msg : List Nat) : ∀ b ∈ md5Bytes msg, b < 256 := by
  intro b hb
  simp only [md5Bytes, List.mem_append] at hb
  rcases hb with ((h | h) | h) | h <;> exact wordBytesLE_lt _ b h

/-- A value below 16 encodes to a lowercase hexadecimal character. -/
theorem hexDigit_mem (n : Nat) (h : n < 16) :
    ("0123456789abcdef".data.contains (hexDigit n)) = true := by
  interval_cases n <;> decide

/-- Every character the hex encoding emits is a lowercase hexadecimal
digit. -/
theorem hexEncodeToString_hex : ∀ bytes : List Nat, (∀ b ∈ bytes, b < 256) →
    ((hexEncodeToString bytes).data.all
      (fun c => "0123456789abcdef".data.contains c)) = true := by
  intro bytes
  induction bytes with
  | nil => intro _; rfl
  | cons b rest ih =>
    intro h
    have h1 : ("0123456789abcdef".data.contains (hexDigit (b / 16))) = true :=
      hexDigit_mem _ (by have := h b (List.mem_cons_self b rest); omega)
    have h2 : ("0123456789abcdef".data.contains (hexDigit (b % 16))) = true :=
      hexDigit_mem _ (by omega)
    show (hexDigit (b / 16) :: hexDigit (b % 16) ::
        (rest.foldr (fun b acc => hexDigit (b / 16) :: hexDigit (b % 16) :: acc)
          [])).all (fun c => "0123456789abcdef".data.contains c) = true
    rw [List.all_cons, List.all_cons, h1, h2]
    simpa using ih (fun x hx => h x (List.mem_cons_of_mem _ hx))

/-- Claim C8 as stated is false: on the forward script of the test in the
repository, extractMigration records the 32-character lowercase hex digest
(exactly the value the test expects in the changelog), while
ReadChangeLogFile records the 16 raw digest bytes as a string — a
different value, so the two loaders do not produce the same encoding. -/
theorem c8_counterexample :
    extractMigrationChecksum
        "CREATE TABLE test (id serial PRIMARY KEY, name VARCHAR(50) UNIQUE NOT NULL)"
      = "9c23564a026f0826f2a05b8423aa21f9" ∧
    (readChangeLogFileChecksum
        "CREATE TABLE test (id serial PRIMARY KEY, name VARCHAR(50) UNIQUE NOT NULL)").length
      = 16 ∧
    readChangeLogFileChecksum
        "CREATE TABLE test (id serial PRIMARY KEY, name VARCHAR(50) UNIQUE NOT NULL)"
      ≠ extractMigrationChecksum
        "CREATE TABLE test (id serial PRIMARY KEY, name VARCHAR(50) UNIQUE NOT NULL)" := by
  refine ⟨by rfl, by rfl, by decide⟩

/-- Claim C8 amended: extractMigration records the stable lowercase
hexadecimal encoding (32 hex characters) of the md5 digest of the exact
script bytes, the encoding the persistent changelog contract expects;
ReadChangeLogFile instead records the raw 16 digest bytes as a string, so
for every script the two loaders disagree. -/
theorem c8_checksum_encodings (script : String) :
    extractMigrationChecksum script
      = hexEncodeToString (md5Bytes (asciiBytes script)) ∧
    readChangeLogFileChecksum script
      = rawByteString (md5Bytes (asciiBytes script)) ∧
    (extractMigrationChecksum script).length = 32 ∧
    (readChangeLogFileChecksum script).length = 16 ∧
    ((extractMigrationChecksum script).data.all
      (fun c => "0123456789abcdef".data.contains c)) = true ∧
    readChangeLogFileChecksum script ≠ extractMigrationChecksum script := by
  have hlen32 : (extractMigrationChecksum script).length = 32 := by
    rw [show extractMigrationChecksum script
        = hexEncodeToString (md5Bytes (asciiBytes script)) from rfl]
    rw [hexEncodeToString_length, md5Bytes_length]
  have hlen16 : (readChangeLogFileChecksum script).length = 16 := by
    show ((md5Bytes (asciiBytes script)).map Char.ofNat).length = 16
    rw [List.length_map, md5Bytes_length]
  refine ⟨rfl, rfl, hlen32, hlen16,
    hexEncodeToString_hex _ (md5Bytes_lt _), ?_⟩
  intro hEq
  rw [hEq, hlen32] at hlen16
  exact absurd hlen16 (by decide)
